import Mathlib

/-!
Shallow embedding of `src/MoodleReplacement.c`: an in-memory academic
record store (students, exams, grades) driven by a line-oriented command
interpreter.  The fixed-size C arrays together with their counts
(`students`/`student_count`, …) are modelled as Lean lists holding the
in-use prefix; the capacity constants are kept for the bounds analysis.
Each record-store operation takes the store and returns the new store
together with the list of output lines it prints (without the trailing
newline).
-/

/-- Capacity of the `students` array (`MAX_STUDENTS`). -/
def MAX_STUDENTS : Nat := 100

/-- Capacity of the `exams` array (`MAX_EXAMS`). -/
def MAX_EXAMS : Nat := 100

/-- Maximal student-name length (`MAX_NAME_LENGTH`). -/
def MAX_NAME_LENGTH : Nat := 100

/-- Maximal faculty-name length (`MAX_FACULTY_LENGTH`). -/
def MAX_FACULTY_LENGTH : Nat := 100

/-- Maximal exam-type length (`MAX_TYPE_LENGTH`). -/
def MAX_TYPE_LENGTH : Nat := 20

/-- Capacity of the `grades` array (`MAX_EXAMS * MAX_STUDENTS`). -/
def MAX_GRADES : Nat := MAX_EXAMS * MAX_STUDENTS

/-- C `struct Student`. -/
structure Student where
  id : Int
  name : String
  faculty : String
deriving DecidableEq, Repr

/-- C `struct Exam`. -/
structure Exam where
  id : Int
  type : String
  info : String
deriving DecidableEq, Repr

/-- C `struct Grade`. -/
structure Grade where
  exam_id : Int
  student_id : Int
  grade : Int
deriving DecidableEq, Repr

/-- The global mutable state of the program: the in-use prefixes of the
three arrays (`students[0..student_count)`, etc.). -/
structure Store where
  students : List Student
  exams : List Exam
  grades : List Grade
deriving DecidableEq, Repr

/-- The initial state: all three counts are zero. -/
def emptyStore : Store := ⟨[], [], []⟩

/-- C `find_student`: linear scan for the first student with the given id.
The C function returns the index (or -1); consumers only use it to access
the record, so we return the record itself. -/
def find_student (s : Store) (id : Int) : Option Student :=
  s.students.find? (fun st => st.id == id)

/-- C `find_exam`: linear scan for the first exam with the given id. -/
def find_exam (s : Store) (id : Int) : Option Exam :=
  s.exams.find? (fun ex => ex.id == id)

/-- C default-locale `isalpha` on ASCII. -/
def isalphaChar (c : Char) : Bool :=
  (65 ≤ c.toNat && c.toNat ≤ 90) || (97 ≤ c.toNat && c.toNat ≤ 122)

/-- The six faculty names accepted by `add_student`. -/
def facultyOk (f : String) : Bool :=
  f == "SoftwareEngineering" || f == "ComputerScience" || f == "DataScience" ||
  f == "CyberSecurity" || f == "InformationTechnology" ||
  f == "ProgrammingLanguagesAndCompilers"

/-- C `add_student`: duplicate-id check, then length check, then faculty
check, then all-alphabetic name check, then append. -/
def add_student (s : Store) (id : Int) (name faculty : String) :
    Store × List String :=
  if (find_student s id).isSome then
    (s, ["Student: " ++ toString id ++ " already exists"])
  else if MAX_NAME_LENGTH ≤ name.length || MAX_FACULTY_LENGTH ≤ faculty.length then
    (s, ["Invalid name or faculty length"])
  else if !(facultyOk faculty) then
    (s, ["Invalid faculty"])
  else if !(name.data.all isalphaChar) then
    (s, ["Invalid name"])
  else
    ({ s with students := s.students ++ [⟨id, name, faculty⟩] },
     ["Student: " ++ toString id ++ " added"])

/-- C `add_exam`: duplicate-id check, then length check, then append; the
type string is not validated at creation. -/
def add_exam (s : Store) (id : Int) (type info : String) :
    Store × List String :=
  if (find_exam s id).isSome then
    (s, ["Exam: " ++ toString id ++ " already exists"])
  else if MAX_TYPE_LENGTH ≤ type.length || MAX_NAME_LENGTH ≤ info.length then
    (s, ["Invalid type or info length"])
  else
    ({ s with exams := s.exams ++ [⟨id, type, info⟩] },
     ["Exam: " ++ toString id ++ " added"])

/-- C `add_grade`: range check on the value first, then the student and
exam existence checks, then append (duplicates of the pair allowed). -/
def add_grade (s : Store) (exam_id student_id grade_value : Int) :
    Store × List String :=
  if grade_value < 0 || 100 < grade_value then
    (s, ["Invalid grade"])
  else if (find_student s student_id).isNone then
    (s, ["Student not found"])
  else if (find_exam s exam_id).isNone then
    (s, ["Exam not found"])
  else
    ({ s with grades := s.grades ++ [⟨exam_id, student_id, grade_value⟩] },
     ["Grade " ++ toString grade_value ++ " added for the student: " ++
      toString student_id])

/-- Overwrite `type` and `info` of the first exam with the given id,
leaving everything else in place (the in-place write at the index found by
`find_exam` in C `update_exam`). -/
def updateExamList (id : Int) (t i : String) : List Exam → List Exam
  | [] => []
  | ex :: exs =>
    if ex.id == id then { ex with type := t, info := i } :: exs
    else ex :: updateExamList id t i exs

/-- C `update_exam`: existence check, then type restricted to WRITTEN or
DIGITAL, then in-place overwrite of type and info. -/
def update_exam (s : Store) (id : Int) (new_type new_info : String) :
    Store × List String :=
  if (find_exam s id).isNone then
    (s, ["Exam not found"])
  else if !(new_type == "WRITTEN") && !(new_type == "DIGITAL") then
    (s, ["Invalid exam type"])
  else
    ({ s with exams := updateExamList id new_type new_info s.exams },
     ["Exam: " ++ toString id ++ " updated"])

/-- Overwrite the value of the first grade matching `(exam_id, student_id)`;
`none` when no grade matches (the scan loop of C `update_grade`). -/
def updateFirstGrade (e sid v : Int) : List Grade → Option (List Grade)
  | [] => none
  | g :: gs =>
    if g.exam_id == e && g.student_id == sid then
      some ({ g with grade := v } :: gs)
    else
      (updateFirstGrade e sid v gs).map (fun l => g :: l)

/-- C `update_grade`: range check on the value first, then first-match scan
and overwrite; failure to find any matching grade reports
"Student not found". -/
def update_grade (s : Store) (exam_id student_id new_grade : Int) :
    Store × List String :=
  if new_grade < 0 || 100 < new_grade then
    (s, ["Invalid grade"])
  else
    match updateFirstGrade exam_id student_id new_grade s.grades with
    | some gs =>
        ({ s with grades := gs },
         ["Grade " ++ toString new_grade ++ " updated for the student: " ++
          toString student_id])
    | none => (s, ["Student not found"])

/-- Remove the first student with the given id, shifting the rest left
(the compaction loop at the index found by `find_student` in C
`delete_student`). -/
def eraseFirstStudent (id : Int) : List Student → List Student
  | [] => []
  | st :: sts =>
    if st.id == id then sts else st :: eraseFirstStudent id sts

/-- Remove every grade whose `student_id` equals `id`, preserving the
relative order of the rest (the shifting loop of C `delete_student`). -/
def removeGradesOf (id : Int) : List Grade → List Grade
  | [] => []
  | g :: gs =>
    if g.student_id == id then removeGradesOf id gs
    else g :: removeGradesOf id gs

/-- C `delete_student`: existence check, then cascade-delete of all grades
of that student, then removal of the student record. -/
def delete_student (s : Store) (id : Int) : Store × List String :=
  if (find_student s id).isNone then
    (s, ["Student not found"])
  else
    ({ s with students := eraseFirstStudent id s.students,
              grades := removeGradesOf id s.grades },
     ["Student: " ++ toString id ++ " deleted"])

/-- The line printed for one student record by `search_student` and
`list_all_students`. -/
def studentLine (st : Student) : String :=
  "ID: " ++ toString st.id ++ ", Name: " ++ st.name ++
  ", Faculty: " ++ st.faculty

/-- C `search_student`: the store is not mutated, so only the output lines
are returned. -/
def search_student (s : Store) (id : Int) : List String :=
  match find_student s id with
  | none => ["Student not found"]
  | some st => [studentLine st]

/-- C `search_grade`: student existence check, then first-match scan over
the grades, then a defensive exam lookup before printing the joined view. -/
def search_grade (s : Store) (exam_id student_id : Int) : List String :=
  match find_student s student_id with
  | none => ["Student not found"]
  | some st =>
    match s.grades.find? (fun g => g.exam_id == exam_id && g.student_id == student_id) with
    | none => ["Grade not found"]
    | some g =>
      match find_exam s exam_id with
      | none => ["Exam not found"]
      | some ex =>
          ["Exam: " ++ toString exam_id ++ ", Student: " ++ toString student_id ++
           ", Name: " ++ st.name ++ ", Grade: " ++ toString g.grade ++
           ", Type: " ++ ex.type ++ ", Info: " ++ ex.info]

/-- C `list_all_students`: one line per student, in current array order. -/
def list_all_students (s : Store) : List String :=
  s.students.map studentLine

/-- A record-store operation together with its arguments, as dispatched by
the interpreter. -/
inductive Op where
  | addStudent (id : Int) (name faculty : String)
  | addExam (id : Int) (type info : String)
  | addGrade (exam_id student_id grade_value : Int)
  | updateExam (id : Int) (new_type new_info : String)
  | updateGrade (exam_id student_id new_grade : Int)
  | deleteStudent (id : Int)
  | searchStudent (id : Int)
  | searchGrade (exam_id student_id : Int)
  | listAllStudents
deriving DecidableEq, Repr

/-- Apply one operation to the store, returning the new store and the
output lines. -/
def applyOp (s : Store) : Op → Store × List String
  | .addStudent id n f => add_student s id n f
  | .addExam id t i => add_exam s id t i
  | .addGrade e sid v => add_grade s e sid v
  | .updateExam id t i => update_exam s id t i
  | .updateGrade e sid v => update_grade s e sid v
  | .deleteStudent id => delete_student s id
  | .searchStudent id => (s, search_student s id)
  | .searchGrade e sid => (s, search_grade s e sid)
  | .listAllStudents => (s, list_all_students s)

/-- The store after a sequence of operations. -/
def runOps (s : Store) (ops : List Op) : Store :=
  ops.foldl (fun t op => (applyOp t op).1) s

/-- C default-locale `isspace` on ASCII. -/
def isspaceChar (c : Char) : Bool :=
  c.toNat == 32 || (9 ≤ c.toNat && c.toNat ≤ 13)

/-- ASCII `isdigit`. -/
def isdigitChar (c : Char) : Bool :=
  48 ≤ c.toNat && c.toNat ≤ 57

/-- Drop leading whitespace, as every `sscanf` conversion does. -/
def skipWs (cs : List Char) : List Char := cs.dropWhile isspaceChar

/-- One `%s` conversion: skip whitespace, then read a maximal nonempty run
of non-whitespace characters; it fails only at end of input. -/
def scanToken (cs : List Char) : Option (List Char × List Char) :=
  match skipWs cs with
  | [] => none
  | c :: rest =>
      some ((c :: rest).takeWhile (fun d => !isspaceChar d),
            (c :: rest).dropWhile (fun d => !isspaceChar d))

/-- Numeric value of a run of decimal digits. -/
def digitsVal (ds : List Char) : Nat :=
  ds.foldl (fun n c => 10 * n + (c.toNat - 48)) 0

/-- One `%d` conversion: skip whitespace, optional sign, then a maximal
nonempty run of decimal digits; it fails (a matching failure that stops the
whole scan) when no digit follows.  A token such as `5x` is split: the
digit prefix is consumed here and `x` is left for the next conversion. -/
def scanInt (cs : List Char) : Option (Int × List Char) :=
  match skipWs cs with
  | '-' :: rest =>
      match rest.takeWhile isdigitChar with
      | [] => none
      | ds => some (-(digitsVal ds : Int), rest.dropWhile isdigitChar)
  | '+' :: rest =>
      match rest.takeWhile isdigitChar with
      | [] => none
      | ds => some ((digitsVal ds : Int), rest.dropWhile isdigitChar)
  | other =>
      match other.takeWhile isdigitChar with
      | [] => none
      | ds => some ((digitsVal ds : Int), other.dropWhile isdigitChar)

/-- The scan `sscanf(line, "%*s %d %s %s", ...)`: succeeds exactly when all
three conversions after the skipped verb succeed. -/
def scan_dss (cs : List Char) : Option (Int × String × String) := do
  let (_, r1) ← scanToken cs
  let (n, r2) ← scanInt r1
  let (a, r3) ← scanToken r2
  let (b, _) ← scanToken r3
  some (n, String.mk a, String.mk b)

/-- The scan `sscanf(line, "%*s %d %d %d", ...)`. -/
def scan_ddd (cs : List Char) : Option (Int × Int × Int) := do
  let (_, r1) ← scanToken cs
  let (n, r2) ← scanInt r1
  let (m, r3) ← scanInt r2
  let (k, _) ← scanInt r3
  some (n, m, k)

/-- The scan `sscanf(line, "%*s %d %d", ...)`. -/
def scan_dd (cs : List Char) : Option (Int × Int) := do
  let (_, r1) ← scanToken cs
  let (n, r2) ← scanInt r1
  let (m, _) ← scanInt r2
  some (n, m)

/-- The scan `sscanf(line, "%*s %d", ...)`. -/
def scan_d (cs : List Char) : Option Int := do
  let (_, r1) ← scanToken cs
  let (n, _) ← scanInt r1
  some n

/-- The verb of a line: its first whitespace-delimited token
(`sscanf(command, "%s", cmd)`). -/
def verbOf (line : List Char) : Option String :=
  (scanToken line).map (fun p => String.mk p.1)

/-- Process one input line as the body of the `main` loop does: extract the
verb, scan the arguments with the command's format, and dispatch.  Returns
the new store and the output lines.  A line with no token leaves `cmd`
uninitialized in C (undefined behaviour); it is modelled as producing no
output.  END produces no output and no store change; `run` stops before the
dispatch on END anyway. -/
def execLine (s : Store) (line : List Char) : Store × List String :=
  match verbOf line with
  | none => (s, [])
  | some cmd =>
    if cmd == "ADD_STUDENT" then
      match scan_dss line with
      | some (id, n, f) => applyOp s (.addStudent id n f)
      | none => (s, ["Invalid ADD_STUDENT command format"])
    else if cmd == "ADD_EXAM" then
      match scan_dss line with
      | some (id, t, i) => applyOp s (.addExam id t i)
      | none => (s, ["Invalid ADD_EXAM command format"])
    else if cmd == "ADD_GRADE" then
      match scan_ddd line with
      | some (e, sid, v) => applyOp s (.addGrade e sid v)
      | none => (s, ["Invalid ADD_GRADE command format"])
    else if cmd == "UPDATE_EXAM" then
      match scan_dss line with
      | some (id, t, i) => applyOp s (.updateExam id t i)
      | none => (s, ["Invalid UPDATE_EXAM command format"])
    else if cmd == "UPDATE_GRADE" then
      match scan_ddd line with
      | some (e, sid, v) => applyOp s (.updateGrade e sid v)
      | none => (s, ["Invalid UPDATE_GRADE command format"])
    else if cmd == "DELETE_STUDENT" then
      match scan_d line with
      | some id => applyOp s (.deleteStudent id)
      | none => (s, ["Invalid DELETE_STUDENT command format"])
    else if cmd == "SEARCH_STUDENT" then
      match scan_d line with
      | some id => applyOp s (.searchStudent id)
      | none => (s, ["Invalid SEARCH_STUDENT command format"])
    else if cmd == "SEARCH_GRADE" then
      match scan_dd line with
      | some (e, sid) => applyOp s (.searchGrade e sid)
      | none => (s, ["Invalid SEARCH_GRADE command format"])
    else if cmd == "LIST_ALL_STUDENTS" then
      applyOp s .listAllStudents
    else if cmd == "END" then
      (s, [])
    else
      (s, ["Unknown command: " ++ cmd])

/-- The `main` read loop: process the lines in order, stopping (and
ignoring everything after) at the first line whose verb is END. -/
def run (s : Store) : List (List Char) → List String
  | [] => []
  | line :: rest =>
    if verbOf line == some "END" then []
    else (execLine s line).2 ++ run (execLine s line).1 rest

/-- Process every line of a list with no END handling: the reference
behaviour on the prefix before the first END. -/
def processAll (s : Store) : List (List Char) → List String
  | [] => []
  | line :: rest => (execLine s line).2 ++ processAll (execLine s line).1 rest

section Helpers

variable {α : Type}

/-- A `find?` scan succeeding is the same as some element satisfying the
predicate. -/
theorem find?_isSome_of_exists (p : α → Bool) (l : List α) (x : α)
    (hx : x ∈ l) (hpx : p x) : (l.find? p).isSome := by
  exact List.find?_isSome.mpr ⟨x, hx, hpx⟩

/-- When the filter of a list is a singleton, the first-match scan returns
exactly that element. -/
theorem find?_of_filter_eq_singleton (p : α → Bool) (l : List α) (x : α)
    (h : l.filter p = [x]) : l.find? p = some x := by
  induction l with
  | nil => simp at h
  | cons a as ih =>
    by_cases hpa : p a
    · rw [List.filter_cons_of_pos hpa] at h
      have hax := (List.cons.injEq .. |>.mp h).1
      subst hax
      simp [List.find?, hpa]
    · rw [List.filter_cons_of_neg hpa] at h
      simp only [List.find?]
      simp [hpa, ih h]

end Helpers

/-- Claim C2: adding a student whose id is already present reports
"Student: <id> already exists" and leaves the entire store unchanged,
whatever the name and faculty arguments are. -/
theorem add_student_duplicate_rejected (s : Store) (id : Int)
    (name faculty : String) (h : ∃ st ∈ s.students, st.id = id) :
    add_student s id name faculty
      = (s, ["Student: " ++ toString id ++ " already exists"]) := by
  obtain ⟨st, hmem, hid⟩ := h
  have hfind : (find_student s id).isSome :=
    find?_isSome_of_exists _ _ st hmem (by simp [hid])
  simp [add_student, hfind]

/-- Witness for C2: a duplicate id is rejected even with an invalid name
and faculty, leaving the one-student store intact. -/
theorem add_student_duplicate_rejected_witness :
    add_student ⟨[⟨1, "John", "ComputerScience"⟩], [], []⟩ 1 "J0hn" "Nowhere"
      = (⟨[⟨1, "John", "ComputerScience"⟩], [], []⟩,
         ["Student: 1 already exists"]) :=
  add_student_duplicate_rejected _ 1 "J0hn" "Nowhere"
    ⟨⟨1, "John", "ComputerScience"⟩, by simp, rfl⟩

/-- Claim C5: a grade value outside [0,100] is rejected by both `add_grade`
and `update_grade` with the message "Invalid grade" and no change to the
store; no hypothesis about the referenced student or exam is needed, since
the range check precedes the existence checks. -/
theorem grade_out_of_range_rejected (s : Store) (e sid v : Int)
    (h : v < 0 ∨ 100 < v) :
    add_grade s e sid v = (s, ["Invalid grade"]) ∧
    update_grade s e sid v = (s, ["Invalid grade"]) := by
  have hb : (v < 0 || 100 < v) = true := by
    rcases h with h | h <;> simp [h]
  exact ⟨by simp [add_grade, hb], by simp [update_grade, hb]⟩

/-- Witness for C5: the value 101 is rejected by both operations on the
empty store, where neither the student nor the exam exists. -/
theorem grade_out_of_range_rejected_witness :
    add_grade emptyStore 10 1 101 = (emptyStore, ["Invalid grade"]) ∧
    update_grade emptyStore 10 1 101 = (emptyStore, ["Invalid grade"]) :=
  grade_out_of_range_rejected emptyStore 10 1 101 (Or.inr (by decide))

/-- Overwriting the first exam with a given id, when the prefix has no exam
with that id, rewrites exactly that element in place. -/
theorem updateExamList_append (id : Int) (t i : String) (l₁ : List Exam)
    (ex : Exam) (l₂ : List Exam) (h₁ : ∀ e ∈ l₁, e.id ≠ id)
    (h₂ : ex.id = id) :
    updateExamList id t i (l₁ ++ ex :: l₂)
      = l₁ ++ { ex with type := t, info := i } :: l₂ := by
  induction l₁ with
  | nil => simp [updateExamList, h₂]
  | cons a as ih =>
    have ha : ¬(a.id = id) := h₁ a (by simp)
    have ih' := ih (fun e he => h₁ e (by simp [he]))
    simpa [updateExamList, ha] using ih'

/-- Claim C6: `add_exam` inserts for any type token whatsoever when the id
is fresh and the lengths are in bounds, whereas `update_exam` on an
existing exam rejects every new type other than WRITTEN or DIGITAL with
"Invalid exam type", and for those two overwrites type and info of the
first exam with that id in place. -/
theorem exam_type_asymmetry (s : Store) (id : Int) (t i : String) :
    ((∀ ex ∈ s.exams, ex.id ≠ id) →
      t.length < MAX_TYPE_LENGTH → i.length < MAX_NAME_LENGTH →
      add_exam s id t i
        = ({ s with exams := s.exams ++ [⟨id, t, i⟩] },
           ["Exam: " ++ toString id ++ " added"])) ∧
    ((∃ ex ∈ s.exams, ex.id = id) → t ≠ "WRITTEN" → t ≠ "DIGITAL" →
      update_exam s id t i = (s, ["Invalid exam type"])) ∧
    (∀ l₁ ex l₂, s.exams = l₁ ++ ex :: l₂ → (∀ e ∈ l₁, e.id ≠ id) →
      ex.id = id → (t = "WRITTEN" ∨ t = "DIGITAL") →
      update_exam s id t i
        = ({ s with exams := l₁ ++ { ex with type := t, info := i } :: l₂ },
           ["Exam: " ++ toString id ++ " updated"])) := by
  refine ⟨fun hfresh hlt hli => ?_, fun hex hw hd => ?_, ?_⟩
  · have hfind : find_exam s id = none :=
      List.find?_eq_none.mpr (fun ex hm => by simp [hfresh ex hm])
    have h1 : ¬(MAX_TYPE_LENGTH ≤ t.length) := by omega
    have h2 : ¬(MAX_NAME_LENGTH ≤ i.length) := by omega
    simp [add_exam, hfind, h1, h2]
  · obtain ⟨ex, hmem, hid⟩ := hex
    have hfind : (find_exam s id).isSome :=
      find?_isSome_of_exists _ _ ex hmem (by simp [hid])
    have hfalse : (find_exam s id).isNone = false := by
      simp [Option.isNone_eq_false_iff, ← Option.isSome_iff_ne_none, hfind]
    simp [update_exam, hfalse, hw, hd]
  · intro l₁ ex l₂ hdec hpre hid ht
    have hfind : (find_exam s id).isSome := by
      refine find?_isSome_of_exists _ _ ex ?_ (by simp [hid])
      rw [hdec]; exact List.mem_append_right _ (by simp)
    have hfalse : (find_exam s id).isNone = false := by
      simp [Option.isNone_eq_false_iff, ← Option.isSome_iff_ne_none, hfind]
    have htb : (!(t == "WRITTEN") && !(t == "DIGITAL")) = false := by
      rcases ht with h | h <;> simp [h]
    rw [update_exam, hfalse]
    simp only [Bool.false_eq_true, if_false, htb, if_false]
    rw [hdec, updateExamList_append id t i l₁ ex l₂ hpre hid]

/-- Witness for C6: an exam created with the free-form type "ORAL" can then
only be updated to WRITTEN or DIGITAL; the rejected update leaves the store
unchanged and the accepted one overwrites type and info in place. -/
theorem exam_type_asymmetry_witness :
    add_exam emptyStore 10 "ORAL" "Midterm"
      = (⟨[], [⟨10, "ORAL", "Midterm"⟩], []⟩, ["Exam: 10 added"]) ∧
    update_exam ⟨[], [⟨10, "ORAL", "Midterm"⟩], []⟩ 10 "SPOKEN" "Final"
      = (⟨[], [⟨10, "ORAL", "Midterm"⟩], []⟩, ["Invalid exam type"]) ∧
    update_exam ⟨[], [⟨10, "ORAL", "Midterm"⟩], []⟩ 10 "DIGITAL" "Final"
      = (⟨[], [⟨10, "DIGITAL", "Final"⟩], []⟩, ["Exam: 10 updated"]) := by
  refine ⟨(exam_type_asymmetry emptyStore 10 "ORAL" "Midterm").1
      (by simp [emptyStore]) (by decide) (by decide), ?_, ?_⟩
  · exact (exam_type_asymmetry _ 10 "SPOKEN" "Final").2.1
      ⟨⟨10, "ORAL", "Midterm"⟩, by simp, rfl⟩ (by decide) (by decide)
  · exact (exam_type_asymmetry _ 10 "DIGITAL" "Final").2.2
      [] ⟨10, "ORAL", "Midterm"⟩ [] rfl (by simp) rfl (Or.inr rfl)

/-- Boolean form of a grade not matching the `(exam_id, student_id)` pair. -/
theorem gradeMatch_false {g : Grade} {e sid : Int}
    (h : ¬(g.exam_id = e ∧ g.student_id = sid)) :
    (g.exam_id == e && g.student_id == sid) = false := by
  by_cases h1 : g.exam_id = e
  · have h2 : g.student_id ≠ sid := fun h2 => h ⟨h1, h2⟩
    simp [h1, h2]
  · simp [h1]

/-- The grade-update scan fails exactly on a list with no matching pair. -/
theorem updateFirstGrade_none (e sid v : Int) (l : List Grade)
    (h : ∀ g ∈ l, ¬(g.exam_id = e ∧ g.student_id = sid)) :
    updateFirstGrade e sid v l = none := by
  induction l with
  | nil => rfl
  | cons g gs ih =>
    have hb := gradeMatch_false (h g (by simp))
    simp [updateFirstGrade, hb, ih (fun x hx => h x (by simp [hx]))]

/-- The grade-update scan on a list whose first match is exposed rewrites
exactly that record's value, in place. -/
theorem updateFirstGrade_append (e sid v : Int) (l₁ : List Grade) (g : Grade)
    (l₂ : List Grade) (h₁ : ∀ x ∈ l₁, ¬(x.exam_id = e ∧ x.student_id = sid))
    (he : g.exam_id = e) (hs : g.student_id = sid) :
    updateFirstGrade e sid v (l₁ ++ g :: l₂)
      = some (l₁ ++ { g with grade := v } :: l₂) := by
  induction l₁ with
  | nil => simp [updateFirstGrade, he, hs]
  | cons a as ih =>
    have hb := gradeMatch_false (h₁ a (by simp))
    have ih' := ih (fun x hx => h₁ x (by simp [hx]))
    simp [updateFirstGrade, hb, ih']

/-- Every list containing a match for the pair splits at its first match. -/
theorem exists_first_grade_match (e sid : Int) (l : List Grade)
    (h : ∃ g ∈ l, g.exam_id = e ∧ g.student_id = sid) :
    ∃ l₁ g l₂, l = l₁ ++ g :: l₂ ∧
      (∀ x ∈ l₁, ¬(x.exam_id = e ∧ x.student_id = sid)) ∧
      g.exam_id = e ∧ g.student_id = sid := by
  induction l with
  | nil => simp at h
  | cons a as ih =>
    by_cases ha : a.exam_id = e ∧ a.student_id = sid
    · exact ⟨[], a, as, rfl, by simp, ha.1, ha.2⟩
    · have h' : ∃ g ∈ as, g.exam_id = e ∧ g.student_id = sid := by
        obtain ⟨g, hg, hgp⟩ := h
        rcases List.mem_cons.mp hg with rfl | hmemg
        · exact absurd hgp ha
        · exact ⟨g, hmemg, hgp⟩
      obtain ⟨l₁, g, l₂, hdec, hpre, hge, hgs⟩ := ih h'
      refine ⟨a :: l₁, g, l₂, by rw [hdec]; rfl, ?_, hge, hgs⟩
      intro x hx
      rcases List.mem_cons.mp hx with rfl | hx'
      · exact ha
      · exact hpre x hx'

/-- Claim C4: with an in-range value, `update_grade` rewrites exactly the
first grade matching the pair and leaves all other grades untouched;
without any matching grade it reports "Student not found" and changes
nothing; and a second identical update succeeds again and rewrites the same
record, leaving the store as after the first update. -/
theorem update_grade_spec (s : Store) (e sid v : Int)
    (h0 : 0 ≤ v) (h1 : v ≤ 100) :
    (∀ l₁ g l₂, s.grades = l₁ ++ g :: l₂ →
      (∀ x ∈ l₁, ¬(x.exam_id = e ∧ x.student_id = sid)) →
      g.exam_id = e → g.student_id = sid →
      update_grade s e sid v
        = ({ s with grades := l₁ ++ { g with grade := v } :: l₂ },
           ["Grade " ++ toString v ++ " updated for the student: " ++
            toString sid])) ∧
    ((∀ g ∈ s.grades, ¬(g.exam_id = e ∧ g.student_id = sid)) →
      update_grade s e sid v = (s, ["Student not found"])) ∧
    ((∃ g ∈ s.grades, g.exam_id = e ∧ g.student_id = sid) →
      update_grade (update_grade s e sid v).1 e sid v
        = ((update_grade s e sid v).1,
           ["Grade " ++ toString v ++ " updated for the student: " ++
            toString sid])) := by
  have hrange : (v < 0 || 100 < v) = false := by
    have ha : ¬(v < 0) := by omega
    have hb : ¬(100 < v) := by omega
    simp [ha, hb]
  refine ⟨fun l₁ g l₂ hdec hpre hge hgs => ?_, fun hnone => ?_, fun hex => ?_⟩
  · have hu := updateFirstGrade_append e sid v l₁ g l₂ hpre hge hgs
    simp [update_grade, hrange, hdec, hu]
  · have hu := updateFirstGrade_none e sid v s.grades hnone
    simp [update_grade, hrange, hu]
  · obtain ⟨l₁, g, l₂, hdec, hpre, hge, hgs⟩ :=
      exists_first_grade_match e sid s.grades hex
    have hu1 := updateFirstGrade_append e sid v l₁ g l₂ hpre hge hgs
    have hfirst : (update_grade s e sid v).1
        = { s with grades := l₁ ++ { g with grade := v } :: l₂ } := by
      simp [update_grade, hrange, hdec, hu1]
    have hu2 := updateFirstGrade_append e sid v l₁ { g with grade := v } l₂
      hpre hge hgs
    rw [hfirst]
    simp [update_grade, hrange, hu2]

/-- Witness for C4: on a store holding two grades for the pair (10, 1), the
update rewrites only the first of them, and repeating it changes nothing
further. -/
theorem update_grade_spec_witness :
    update_grade ⟨[⟨1, "John", "ComputerScience"⟩], [⟨10, "WRITTEN", "Midterm"⟩],
        [⟨10, 1, 85⟩, ⟨10, 1, 90⟩]⟩ 10 1 97
      = (⟨[⟨1, "John", "ComputerScience"⟩], [⟨10, "WRITTEN", "Midterm"⟩],
          [⟨10, 1, 97⟩, ⟨10, 1, 90⟩]⟩,
         ["Grade 97 updated for the student: 1"]) :=
  (update_grade_spec ⟨[⟨1, "John", "ComputerScience"⟩],
      [⟨10, "WRITTEN", "Midterm"⟩], [⟨10, 1, 85⟩, ⟨10, 1, 90⟩]⟩ 10 1 97
      (by decide) (by decide)).1
    [] ⟨10, 1, 85⟩ [⟨10, 1, 90⟩] rfl (by simp) rfl rfl

/-- The cascade loop of `delete_student` is the order-preserving filter of
the grades not referencing the deleted student. -/
theorem removeGradesOf_eq_filter (id : Int) (l : List Grade) :
    removeGradesOf id l = l.filter (fun g => !(g.student_id == id)) := by
  induction l with
  | nil => rfl
  | cons g gs ih =>
    by_cases h : g.student_id = id
    · simp [removeGradesOf, h, ih]
    · simp [removeGradesOf, h, ih]

/-- When student ids are unique, removing the first student with a given id
is the order-preserving filter of the students with a different id. -/
theorem eraseFirstStudent_eq_filter (id : Int) (l : List Student)
    (h : (l.map Student.id).Nodup) :
    eraseFirstStudent id l = l.filter (fun st => !(st.id == id)) := by
  induction l with
  | nil => rfl
  | cons st sts ih =>
    rw [List.map_cons, List.nodup_cons] at h
    by_cases hst : st.id = id
    · have hall : ∀ x ∈ sts, ¬(x.id = id) := by
        intro x hx hxid
        exact h.1 (List.mem_map.mpr ⟨x, hx, by rw [hxid, hst]⟩)
      have hfix : sts.filter (fun st => !(st.id == id)) = sts :=
        List.filter_eq_self.mpr (fun a ha => by simp [hall a ha])
      simp [eraseFirstStudent, hst, hfix]
    · simp [eraseFirstStudent, hst, ih h.2]

/-- Claim C3: deleting a present student (ids being unique, as in every
reachable store) removes exactly that student and every grade referencing
it, preserving the relative order of the remaining students and grades;
afterwards `search_student` on that id reports "Student not found", and so
does `search_grade` for that student under any exam id. -/
theorem delete_student_spec (s : Store) (id : Int)
    (hpres : ∃ st ∈ s.students, st.id = id)
    (hnodup : (s.students.map Student.id).Nodup) :
    delete_student s id
      = ({ s with students := s.students.filter (fun st => !(st.id == id)),
                  grades := s.grades.filter (fun g => !(g.student_id == id)) },
         ["Student: " ++ toString id ++ " deleted"]) ∧
    search_student (delete_student s id).1 id = ["Student not found"] ∧
    (∀ e, search_grade (delete_student s id).1 e id = ["Student not found"]) := by
  obtain ⟨st, hmem, hid⟩ := hpres
  have hfind : (find_student s id).isSome :=
    find?_isSome_of_exists _ _ st hmem (by simp [hid])
  have hfalse : (find_student s id).isNone = false := by
    simp [Option.isNone_eq_false_iff, ← Option.isSome_iff_ne_none, hfind]
  have hdel : delete_student s id
      = ({ s with students := s.students.filter (fun st => !(st.id == id)),
                  grades := s.grades.filter (fun g => !(g.student_id == id)) },
         ["Student: " ++ toString id ++ " deleted"]) := by
    rw [delete_student, hfalse]
    simp [eraseFirstStudent_eq_filter id s.students hnodup,
          removeGradesOf_eq_filter]
  have hnone : find_student (delete_student s id).1 id = none := by
    rw [hdel]
    refine List.find?_eq_none.mpr (fun x hx => ?_)
    have hmf := List.mem_filter.mp hx
    simpa using hmf.2
  exact ⟨hdel, by simp [search_student, hnone], fun e => by simp [search_grade, hnone]⟩

/-- Witness for C3: deleting student 1 removes it and both of its grades
(also under two different exams), while student 2 and its grade survive in
order; the subsequent searches report "Student not found". -/
theorem delete_student_spec_witness :
    delete_student ⟨[⟨1, "John", "ComputerScience"⟩, ⟨2, "Anna", "DataScience"⟩],
        [⟨10, "WRITTEN", "Midterm"⟩, ⟨11, "DIGITAL", "Final"⟩],
        [⟨10, 1, 85⟩, ⟨10, 2, 70⟩, ⟨11, 1, 90⟩]⟩ 1
      = (⟨[⟨2, "Anna", "DataScience"⟩],
          [⟨10, "WRITTEN", "Midterm"⟩, ⟨11, "DIGITAL", "Final"⟩],
          [⟨10, 2, 70⟩]⟩,
         ["Student: 1 deleted"]) ∧
    search_grade (delete_student ⟨[⟨1, "John", "ComputerScience"⟩,
        ⟨2, "Anna", "DataScience"⟩],
        [⟨10, "WRITTEN", "Midterm"⟩, ⟨11, "DIGITAL", "Final"⟩],
        [⟨10, 1, 85⟩, ⟨10, 2, 70⟩, ⟨11, 1, 90⟩]⟩ 1).1 10 1
      = ["Student not found"] := by
  have h := delete_student_spec ⟨[⟨1, "John", "ComputerScience"⟩,
      ⟨2, "Anna", "DataScience"⟩],
      [⟨10, "WRITTEN", "Midterm"⟩, ⟨11, "DIGITAL", "Final"⟩],
      [⟨10, 1, 85⟩, ⟨10, 2, 70⟩, ⟨11, 1, 90⟩]⟩ 1
    ⟨⟨1, "John", "ComputerScience"⟩, by simp, rfl⟩ (by decide)
  exact ⟨by rw [h.1]; decide, h.2.2 10⟩

/-- Removing the first student with a different id does not change the
students matching a given id. -/
theorem filter_eraseFirstStudent_ne (id id' : Int) (hne : id' ≠ id)
    (l : List Student) :
    (eraseFirstStudent id' l).filter (fun st => st.id == id)
      = l.filter (fun st => st.id == id) := by
  induction l with
  | nil => rfl
  | cons st sts ih =>
    by_cases h : st.id = id'
    · have hstid : ¬(st.id = id) := by rw [h]; exact hne
      have he : eraseFirstStudent id' (st :: sts) = sts := by
        simp [eraseFirstStudent, h]
      rw [he, List.filter_cons_of_neg (by simp [hstid])]
    · have he : eraseFirstStudent id' (st :: sts)
          = st :: eraseFirstStudent id' sts := by
        simp [eraseFirstStudent, h]
      rw [he]
      by_cases h2 : st.id = id
      · rw [List.filter_cons_of_pos (by simp [h2]),
            List.filter_cons_of_pos (by simp [h2]), ih]
      · rw [List.filter_cons_of_neg (by simp [h2]),
            List.filter_cons_of_neg (by simp [h2]), ih]

/-- The students component of `add_student`: either unchanged (one of the
failure branches) or the appended record on a fresh id. -/
theorem add_student_students (s : Store) (id' : Int) (n f : String) :
    (add_student s id' n f).1.students = s.students ∨
    ((add_student s id' n f).1.students = s.students ++ [⟨id', n, f⟩] ∧
      find_student s id' = none) := by
  unfold add_student
  split
  next h => left; rfl
  next h =>
    have hnone : find_student s id' = none := by
      simpa [Option.not_isSome_iff_eq_none] using h
    split
    next => left; rfl
    next =>
      split
      next => left; rfl
      next =>
        split
        next => left; rfl
        next => right; exact ⟨rfl, hnone⟩

/-- `add_exam` never touches the students. -/
theorem add_exam_students (s : Store) (id : Int) (t i : String) :
    (add_exam s id t i).1.students = s.students := by
  unfold add_exam
  split
  · rfl
  · split <;> rfl

/-- `add_grade` never touches the students. -/
theorem add_grade_students (s : Store) (e sid v : Int) :
    (add_grade s e sid v).1.students = s.students := by
  unfold add_grade
  split
  · rfl
  split
  · rfl
  split <;> rfl

/-- `update_exam` never touches the students. -/
theorem update_exam_students (s : Store) (id : Int) (t i : String) :
    (update_exam s id t i).1.students = s.students := by
  unfold update_exam
  split
  · rfl
  · split <;> rfl

/-- `update_grade` never touches the students. -/
theorem update_grade_students (s : Store) (e sid v : Int) :
    (update_grade s e sid v).1.students = s.students := by
  unfold update_grade
  split
  · rfl
  · split <;> rfl

/-- One step of invariant preservation for C1: any operation other than
deleting the student keeps the list of students carrying its id equal to
the single stored record. -/
theorem applyOp_preserves_student_filter (id : Int) (x : Student) (s : Store)
    (op : Op)
    (hP : s.students.filter (fun st => st.id == id) = [x])
    (hop : op ≠ Op.deleteStudent id) :
    (applyOp s op).1.students.filter (fun st => st.id == id) = [x] := by
  have hxmem : x ∈ s.students ∧ (x.id == id) = true :=
    List.mem_filter.mp (by rw [hP]; exact List.mem_singleton_self x)
  cases op with
  | addStudent id' n f =>
    rcases add_student_students s id' n f with h | ⟨h, hnone⟩
    · show (add_student s id' n f).1.students.filter _ = [x]
      rw [h]; exact hP
    · show (add_student s id' n f).1.students.filter _ = [x]
      rw [h, List.filter_append]
      have hne : ¬((id' : Int) = id) := by
        intro he
        subst he
        have := List.find?_eq_none.mp hnone x hxmem.1
        simp [hxmem.2] at this
      rw [hP]
      simp [hne]
  | addExam id' t i =>
    show (add_exam s id' t i).1.students.filter _ = [x]
    rw [add_exam_students]; exact hP
  | addGrade e sid v =>
    show (add_grade s e sid v).1.students.filter _ = [x]
    rw [add_grade_students]; exact hP
  | updateExam id' t i =>
    show (update_exam s id' t i).1.students.filter _ = [x]
    rw [update_exam_students]; exact hP
  | updateGrade e sid v =>
    show (update_grade s e sid v).1.students.filter _ = [x]
    rw [update_grade_students]; exact hP
  | deleteStudent id' =>
    have hne : id' ≠ id := fun he => hop (by rw [he])
    show (delete_student s id').1.students.filter _ = [x]
    unfold delete_student
    split
    next => exact hP
    next =>
      show (eraseFirstStudent id' s.students).filter _ = [x]
      rw [filter_eraseFirstStudent_ne id id' hne]; exact hP
  | searchStudent id' => exact hP
  | searchGrade e sid => exact hP
  | listAllStudents => exact hP

/-- Invariant preservation for C1 along any sequence of operations that
never deletes the student. -/
theorem runOps_preserves_student_filter (id : Int) (x : Student)
    (ops : List Op) :
    ∀ s : Store, s.students.filter (fun st => st.id == id) = [x] →
    (∀ op ∈ ops, op ≠ Op.deleteStudent id) →
    (runOps s ops).students.filter (fun st => st.id == id) = [x] := by
  induction ops with
  | nil => intro s hP _; exact hP
  | cons op ops ih =>
    intro s hP hops
    simp only [runOps, List.foldl_cons]
    exact ih _ (applyOp_preserves_student_filter id x s op hP (hops op (by simp)))
      (fun o ho => hops o (by simp [ho]))

/-- Claim C1: after a successful `add_student` (fresh id, in-bound lengths,
allowed faculty, all-alphabetic name), any later `search_student` on that
id — across any sequence of operations not containing `delete_student` of
that id — prints exactly the stored id, name and faculty. -/
theorem add_student_then_search (s : Store) (id : Int) (name faculty : String)
    (ops : List Op)
    (hfresh : ∀ st ∈ s.students, st.id ≠ id)
    (hnlen : name.length < MAX_NAME_LENGTH)
    (hflen : faculty.length < MAX_FACULTY_LENGTH)
    (hfac : facultyOk faculty = true)
    (halpha : name.data.all isalphaChar = true)
    (hops : ∀ op ∈ ops, op ≠ Op.deleteStudent id) :
    (add_student s id name faculty).2
      = ["Student: " ++ toString id ++ " added"] ∧
    search_student (runOps (add_student s id name faculty).1 ops) id
      = ["ID: " ++ toString id ++ ", Name: " ++ name ++
         ", Faculty: " ++ faculty] := by
  have hfind : find_student s id = none :=
    List.find?_eq_none.mpr (fun st hm => by simp [hfresh st hm])
  have h1 : ¬(MAX_NAME_LENGTH ≤ name.length) := by omega
  have h2 : ¬(MAX_FACULTY_LENGTH ≤ faculty.length) := by omega
  have hadd : add_student s id name faculty
      = ({ s with students := s.students ++ [⟨id, name, faculty⟩] },
         ["Student: " ++ toString id ++ " added"]) := by
    simp [add_student, hfind, h1, h2, hfac, halpha]
  have hprefix : s.students.filter (fun st => st.id == id) = [] :=
    List.filter_eq_nil_iff.mpr (fun a ha => by simp [hfresh a ha])
  have hP : (add_student s id name faculty).1.students.filter
      (fun st => st.id == id) = [⟨id, name, faculty⟩] := by
    rw [hadd]
    show (s.students ++ [(⟨id, name, faculty⟩ : Student)]).filter
      (fun st => st.id == id) = _
    rw [List.filter_append, hprefix]
    simp
  have hfinal := runOps_preserves_student_filter id
    (⟨id, name, faculty⟩ : Student) ops (add_student s id name faculty).1
    hP hops
  have hfound : find_student (runOps (add_student s id name faculty).1 ops) id
      = some ⟨id, name, faculty⟩ :=
    find?_of_filter_eq_singleton _ _ _ hfinal
  exact ⟨by rw [hadd], by simp [search_student, hfound, studentLine]⟩

/-- Witness for C1: student 1 is added, then an exam, a grade for the
student, a second student, a deletion of the second student and a grade
update all intervene; the search still returns the stored record. -/
theorem add_student_then_search_witness :
    search_student (runOps (add_student emptyStore 1 "John" "ComputerScience").1
        [Op.addExam 10 "WRITTEN" "Midterm", Op.addGrade 10 1 85,
         Op.addStudent 2 "Anna" "DataScience", Op.deleteStudent 2,
         Op.updateGrade 10 1 90]) 1
      = ["ID: 1, Name: John, Faculty: ComputerScience"] := by
  have h := add_student_then_search emptyStore 1 "John" "ComputerScience"
    [Op.addExam 10 "WRITTEN" "Midterm", Op.addGrade 10 1 85,
     Op.addStudent 2 "Anna" "DataScience", Op.deleteStudent 2,
     Op.updateGrade 10 1 90]
    (by simp [emptyStore]) (by decide) (by decide) (by decide) (by decide)
    (by decide)
  rw [h.2]
  decide

/-- Referential integrity of the store: every grade references the id of
some current student and of some current exam. -/
def WF (s : Store) : Prop :=
  ∀ g ∈ s.grades,
    g.student_id ∈ s.students.map Student.id ∧
    g.exam_id ∈ s.exams.map Exam.id

/-- The in-place exam update does not change the multiset of exam ids. -/
theorem updateExamList_map_id (id : Int) (t i : String) (l : List Exam) :
    (updateExamList id t i l).map Exam.id = l.map Exam.id := by
  induction l with
  | nil => rfl
  | cons ex exs ih =>
    by_cases h : ex.id = id
    · simp [updateExamList, h]
    · simp [updateExamList, h, ih]

/-- Every grade of the list produced by the grade-update scan carries the
ids of some grade of the input list. -/
theorem updateFirstGrade_ids (e sid v : Int) (l : List Grade) :
    ∀ l', updateFirstGrade e sid v l = some l' →
    ∀ g' ∈ l', ∃ g ∈ l, g'.student_id = g.student_id ∧ g'.exam_id = g.exam_id := by
  induction l with
  | nil => intro l' hl'; exact Option.noConfusion hl'
  | cons g gs ih =>
    intro l' hl'
    rw [updateFirstGrade] at hl'
    by_cases hb : (g.exam_id == e && g.student_id == sid) = true
    · rw [if_pos hb] at hl'
      have : ({ g with grade := v } :: gs) = l' := Option.some.injEq .. |>.mp hl'
      subst this
      intro g' hg'
      rcases List.mem_cons.mp hg' with rfl | hmem
      · exact ⟨g, by simp, rfl, rfl⟩
      · exact ⟨g', by simp [hmem], rfl, rfl⟩
    · rw [if_neg hb] at hl'
      cases hgs : updateFirstGrade e sid v gs with
      | none => rw [hgs] at hl'; simp at hl'
      | some gs' =>
        rw [hgs] at hl'
        simp at hl'
        subst hl'
        intro g' hg'
        rcases List.mem_cons.mp hg' with rfl | hmem
        · exact ⟨g', by simp, rfl, rfl⟩
        · obtain ⟨g0, hg0, he1, he2⟩ := ih gs' hgs g' hmem
          exact ⟨g0, by simp [hg0], he1, he2⟩

/-- An id different from the deleted one keeps a representative among the
students after the first-match removal. -/
theorem mem_map_id_eraseFirstStudent (id a : Int) (l : List Student)
    (ha : a ∈ l.map Student.id) (hne : a ≠ id) :
    a ∈ (eraseFirstStudent id l).map Student.id := by
  induction l with
  | nil => simp at ha
  | cons st sts ih =>
    rw [List.map_cons, List.mem_cons] at ha
    by_cases h : st.id = id
    · have he : eraseFirstStudent id (st :: sts) = sts := by
        simp [eraseFirstStudent, h]
      rw [he]
      rcases ha with rfl | ha'
      · exact absurd h hne
      · exact ha'
    · have he : eraseFirstStudent id (st :: sts)
          = st :: eraseFirstStudent id sts := by
        simp [eraseFirstStudent, h]
      rw [he, List.map_cons, List.mem_cons]
      rcases ha with rfl | ha'
      · exact Or.inl rfl
      · exact Or.inr (ih ha')

/-- One step of referential-integrity preservation: every operation keeps
`WF`. -/
theorem applyOp_preserves_WF (s : Store) (op : Op) (h : WF s) :
    WF (applyOp s op).1 := by
  cases op with
  | addStudent id n f =>
    show WF (add_student s id n f).1
    unfold add_student
    split
    · exact h
    split
    · exact h
    split
    · exact h
    split
    · exact h
    · intro g hg
      obtain ⟨h1, h2⟩ := h g hg
      refine ⟨?_, h2⟩
      rw [List.map_append]
      exact List.mem_append_left _ h1
  | addExam id t i =>
    show WF (add_exam s id t i).1
    unfold add_exam
    split
    · exact h
    split
    · exact h
    · intro g hg
      obtain ⟨h1, h2⟩ := h g hg
      refine ⟨h1, ?_⟩
      rw [List.map_append]
      exact List.mem_append_left _ h2
  | addGrade e sid v =>
    show WF (add_grade s e sid v).1
    unfold add_grade
    split
    · exact h
    split
    · exact h
    split
    · exact h
    next hrange hstud hexam =>
      have hst : (find_student s sid).isSome := by
        cases hfs : find_student s sid with
        | none => exact absurd (by simp [hfs]) hstud
        | some st => rfl
      have hex : (find_exam s e).isSome := by
        cases hfe : find_exam s e with
        | none => exact absurd (by simp [hfe]) hexam
        | some ex => rfl
      obtain ⟨st, hsteq⟩ := Option.isSome_iff_exists.mp hst
      obtain ⟨ex, hexeq⟩ := Option.isSome_iff_exists.mp hex
      have hsteq' : List.find? (fun st => st.id == sid) s.students = some st :=
        hsteq
      have hexeq' : List.find? (fun ex => ex.id == e) s.exams = some ex := hexeq
      have hstmem := List.mem_of_find?_eq_some hsteq'
      have hstid := List.find?_some hsteq'
      have hexmem := List.mem_of_find?_eq_some hexeq'
      have hexid := List.find?_some hexeq'
      intro g hg
      rw [List.mem_append] at hg
      rcases hg with hgold | hgnew
      · exact h g hgold
      · have : g = ⟨e, sid, v⟩ := by simpa using hgnew
        subst this
        constructor
        · exact List.mem_map.mpr ⟨st, hstmem, by simpa using hstid⟩
        · exact List.mem_map.mpr ⟨ex, hexmem, by simpa using hexid⟩
  | updateExam id t i =>
    show WF (update_exam s id t i).1
    unfold update_exam
    split
    · exact h
    split
    · exact h
    · intro g hg
      obtain ⟨h1, h2⟩ := h g hg
      refine ⟨h1, ?_⟩
      rw [updateExamList_map_id]
      exact h2
  | updateGrade e sid v =>
    show WF (update_grade s e sid v).1
    unfold update_grade
    split
    · exact h
    · split
      next gs' hgs' =>
        intro g hg
        obtain ⟨g0, hg0, he1, he2⟩ :=
          updateFirstGrade_ids e sid v s.grades gs' hgs' g hg
        obtain ⟨h1, h2⟩ := h g0 hg0
        exact ⟨by rw [he1]; exact h1, by rw [he2]; exact h2⟩
      next => exact h
  | deleteStudent id =>
    show WF (delete_student s id).1
    unfold delete_student
    split
    · exact h
    · intro g hg
      have hg' : g ∈ s.grades.filter (fun g => !(g.student_id == id)) := by
        rw [← removeGradesOf_eq_filter]
        exact hg
      have hmf := List.mem_filter.mp hg'
      have hgne : ¬(g.student_id = id) := by simpa using hmf.2
      obtain ⟨h1, h2⟩ := h g hmf.1
      exact ⟨mem_map_id_eraseFirstStudent id g.student_id s.students h1 hgne, h2⟩
  | searchStudent id => exact h
  | searchGrade e sid => exact h
  | listAllStudents => exact h

/-- Referential integrity holds along every operation sequence. -/
theorem WF_runOps (ops : List Op) :
    ∀ s : Store, WF s → WF (runOps s ops) := by
  induction ops with
  | nil => intro s h; exact h
  | cons op ops ih =>
    intro s h
    simp only [runOps, List.foldl_cons]
    exact ih _ (applyOp_preserves_WF s op h)

/-- Claim C9: in every store reachable from the empty store, each grade's
student id and exam id reference a current student and exam; consequently
the defensive "Exam not found" branch inside `search_grade`, checked after
a matching grade is found, can never produce output. -/
theorem reachable_grade_refs_valid (ops : List Op) :
    WF (runOps emptyStore ops) ∧
    ∀ e sid, search_grade (runOps emptyStore ops) e sid ≠ ["Exam not found"] := by
  have hwf : WF (runOps emptyStore ops) :=
    WF_runOps ops emptyStore (by intro g hg; simp [emptyStore] at hg)
  refine ⟨hwf, fun e sid => ?_⟩
  unfold search_grade
  cases hs : find_student (runOps emptyStore ops) sid with
  | none =>
    exact (by decide : (["Student not found"] : List String) ≠ ["Exam not found"])
  | some st =>
    cases hgf : (runOps emptyStore ops).grades.find?
        (fun g => g.exam_id == e && g.student_id == sid) with
    | none =>
      exact (by decide : (["Grade not found"] : List String) ≠ ["Exam not found"])
    | some g =>
      have hmem := List.mem_of_find?_eq_some hgf
      have hp := List.find?_some hgf
      simp only [Bool.and_eq_true, beq_iff_eq] at hp
      have hge : g.exam_id = e := hp.1
      have h2 := (hwf g hmem).2
      have hexs : (find_exam (runOps emptyStore ops) e).isSome := by
        rw [← hge]
        obtain ⟨ex, hexm, hexid⟩ := List.mem_map.mp h2
        exact find?_isSome_of_exists _ _ ex hexm (by simp [hexid])
      obtain ⟨ex, hexeq⟩ := Option.isSome_iff_exists.mp hexs
      rw [hexeq]
      intro hcontra
      have hstr := (List.cons.injEq .. |>.mp hcontra).1
      have hd := congrArg (fun t : String => t.data.take 6) hstr
      simp only [String.data_append, List.append_assoc] at hd
      rw [List.take_append_of_le_length (by decide)] at hd
      exact absurd hd (by decide)

/-- Witness for C9: not required (the theorem has no hypothesis), but the
statement is inhabited at a concrete operation list exercising every kind
of operation. -/
theorem reachable_grade_refs_valid_witness :
    search_grade (runOps emptyStore
        [Op.addStudent 1 "John" "ComputerScience",
         Op.addExam 10 "WRITTEN" "Midterm", Op.addGrade 10 1 85,
         Op.deleteStudent 1]) 10 1 ≠ ["Exam not found"] :=
  (reachable_grade_refs_valid
      [Op.addStudent 1 "John" "ComputerScience",
       Op.addExam 10 "WRITTEN" "Midterm", Op.addGrade 10 1 85,
       Op.deleteStudent 1]).2 10 1

/-- Claim C7: processing stops at the first line whose verb is END; every
line strictly before it produces its normal response, and no line after it
is processed or contributes any output — the run's output is exactly the
concatenated responses of the prefix before the first END. -/
theorem run_stops_at_first_end (pre : List (List Char)) :
    ∀ (s : Store) (line : List Char) (post : List (List Char)),
    verbOf line = some "END" →
    (∀ l ∈ pre, verbOf l ≠ some "END") →
    run s (pre ++ line :: post) = processAll s pre := by
  induction pre with
  | nil =>
    intro s line post hend _
    simp [run, processAll, hend]
  | cons l ls ih =>
    intro s line post hend hpre
    have hne : (verbOf l == some "END") = false :=
      beq_eq_false_iff_ne.mpr (hpre l (by simp))
    simp only [List.cons_append, run, processAll, hne, Bool.false_eq_true,
               if_false, List.append_eq]
    rw [ih (execLine s l).1 line post hend (fun x hx => hpre x (by simp [hx]))]

/-- Witness for C7: two commands before END are processed and the two
commands after END (one of which would mutate the store) are ignored. -/
theorem run_stops_at_first_end_witness :
    run emptyStore
      (["ADD_STUDENT 1 John ComputerScience".data,
        "SEARCH_STUDENT 1".data] ++ "END rest".data ::
       ["ADD_STUDENT 2 Anna DataScience".data, "LIST_ALL_STUDENTS".data])
      = processAll emptyStore
        ["ADD_STUDENT 1 John ComputerScience".data,
         "SEARCH_STUDENT 1".data] :=
  run_stops_at_first_end
    ["ADD_STUDENT 1 John ComputerScience".data, "SEARCH_STUDENT 1".data]
    emptyStore "END rest".data
    ["ADD_STUDENT 2 Anna DataScience".data, "LIST_ALL_STUDENTS".data]
    (by decide) (by decide)

/-- Counterexample to claim C8 as stated: the line
"ADD_STUDENT 5x ComputerScience" has only two tokens after the verb (three
are required) and its integer token is malformed, yet no
"Invalid ADD_STUDENT command format" is emitted: the %d conversion consumes
the digit prefix 5, the trailing x becomes the name token and
ComputerScience the faculty token, so the scan succeeds, the store is
mutated and "Student: 5 added" is printed. -/
theorem malformed_line_counterexample :
    (execLine emptyStore "ADD_STUDENT 5x ComputerScience".data).2
      = ["Student: 5 added"] ∧
    (execLine emptyStore "ADD_STUDENT 5x ComputerScience".data).1
      ≠ emptyStore := by decide

/-- Claim C8 (amended): a recognized fixed-arity command emits
"Invalid <COMMAND> command format" and leaves the store unchanged exactly
when its sscanf-style scan yields fewer conversions than required — because
the line runs out of tokens or an integer field starts with no digit; an
integer token that merely carries trailing non-digits is instead split
between the %d conversion and the following conversion.  A leading token
that is none of the ten verbs emits "Unknown command: <verb>" and leaves
the store unchanged. -/
theorem command_format_errors (s : Store) (line : List Char) (cmd : String)
    (hverb : verbOf line = some cmd) :
    (cmd ∉ (["ADD_STUDENT", "ADD_EXAM", "ADD_GRADE", "UPDATE_EXAM",
             "UPDATE_GRADE", "DELETE_STUDENT", "SEARCH_STUDENT",
             "SEARCH_GRADE", "LIST_ALL_STUDENTS", "END"] : List String) →
      execLine s line = (s, ["Unknown command: " ++ cmd])) ∧
    (cmd = "ADD_STUDENT" → scan_dss line = none →
      execLine s line = (s, ["Invalid ADD_STUDENT command format"])) ∧
    (cmd = "ADD_EXAM" → scan_dss line = none →
      execLine s line = (s, ["Invalid ADD_EXAM command format"])) ∧
    (cmd = "ADD_GRADE" → scan_ddd line = none →
      execLine s line = (s, ["Invalid ADD_GRADE command format"])) ∧
    (cmd = "UPDATE_EXAM" → scan_dss line = none →
      execLine s line = (s, ["Invalid UPDATE_EXAM command format"])) ∧
    (cmd = "UPDATE_GRADE" → scan_ddd line = none →
      execLine s line = (s, ["Invalid UPDATE_GRADE command format"])) ∧
    (cmd = "DELETE_STUDENT" → scan_d line = none →
      execLine s line = (s, ["Invalid DELETE_STUDENT command format"])) ∧
    (cmd = "SEARCH_STUDENT" → scan_d line = none →
      execLine s line = (s, ["Invalid SEARCH_STUDENT command format"])) ∧
    (cmd = "SEARCH_GRADE" → scan_dd line = none →
      execLine s line = (s, ["Invalid SEARCH_GRADE command format"])) := by
  refine ⟨fun hmem => ?_, fun hc hscan => ?_, fun hc hscan => ?_,
    fun hc hscan => ?_, fun hc hscan => ?_, fun hc hscan => ?_,
    fun hc hscan => ?_, fun hc hscan => ?_, fun hc hscan => ?_⟩
  · simp only [List.mem_cons, List.not_mem_nil, or_false] at hmem
    push_neg at hmem
    obtain ⟨h1, h2, h3, h4, h5, h6, h7, h8, h9, h10⟩ := hmem
    simp [execLine, hverb, h1, h2, h3, h4, h5, h6, h7, h8, h9, h10]
  · subst hc; simp [execLine, hverb, hscan]
  · subst hc; simp [execLine, hverb, hscan]
  · subst hc; simp [execLine, hverb, hscan]
  · subst hc; simp [execLine, hverb, hscan]
  · subst hc; simp [execLine, hverb, hscan]
  · subst hc; simp [execLine, hverb, hscan]
  · subst hc; simp [execLine, hverb, hscan]
  · subst hc; simp [execLine, hverb, hscan]

/-- Witness for C8 (amended): an unknown verb, a missing-token line and a
digitless integer field each leave the store unchanged with the right
message. -/
theorem command_format_errors_witness :
    execLine emptyStore "HELLO 1".data
      = (emptyStore, ["Unknown command: HELLO"]) ∧
    execLine emptyStore "ADD_STUDENT 1 John".data
      = (emptyStore, ["Invalid ADD_STUDENT command format"]) ∧
    execLine emptyStore "DELETE_STUDENT abc".data
      = (emptyStore, ["Invalid DELETE_STUDENT command format"]) := by
  refine ⟨?_, ?_, ?_⟩
  · exact (command_format_errors emptyStore "HELLO 1".data "HELLO"
      (by decide)).1 (by decide)
  · exact (command_format_errors emptyStore "ADD_STUDENT 1 John".data
      "ADD_STUDENT" (by decide)).2.1 rfl (by decide)
  · exact (command_format_errors emptyStore "DELETE_STUDENT abc".data
      "DELETE_STUDENT" (by decide)).2.2.2.2.2.2.1 rfl (by decide)

/-- A store whose students array is exactly at the `MAX_STUDENTS` capacity
of the C array. -/
def bigCapStore : Store :=
  ⟨List.replicate MAX_STUDENTS ⟨0, "A", "SoftwareEngineering"⟩, [], []⟩

/-- Claim C10: none of the three add operations checks its count against
the array capacity: an otherwise-valid add always appends, so the write
index (the current count) is in bounds in the C arrays only under the
external precondition count < capacity, and an add performed at or beyond
capacity takes the count strictly past the capacity. -/
theorem adds_have_no_capacity_check :
    (∀ (s : Store) (id : Int) (n f : String),
      (∀ st ∈ s.students, st.id ≠ id) → n.length < MAX_NAME_LENGTH →
      f.length < MAX_FACULTY_LENGTH → facultyOk f = true →
      n.data.all isalphaChar = true →
      (add_student s id n f).1.students.length = s.students.length + 1 ∧
      (MAX_STUDENTS ≤ s.students.length →
        MAX_STUDENTS < (add_student s id n f).1.students.length)) ∧
    (∀ (s : Store) (id : Int) (t i : String),
      (∀ ex ∈ s.exams, ex.id ≠ id) → t.length < MAX_TYPE_LENGTH →
      i.length < MAX_NAME_LENGTH →
      (add_exam s id t i).1.exams.length = s.exams.length + 1 ∧
      (MAX_EXAMS ≤ s.exams.length →
        MAX_EXAMS < (add_exam s id t i).1.exams.length)) ∧
    (∀ (s : Store) (e sid v : Int),
      0 ≤ v → v ≤ 100 → (∃ st ∈ s.students, st.id = sid) →
      (∃ ex ∈ s.exams, ex.id = e) →
      (add_grade s e sid v).1.grades.length = s.grades.length + 1 ∧
      (MAX_GRADES ≤ s.grades.length →
        MAX_GRADES < (add_grade s e sid v).1.grades.length)) := by
  refine ⟨fun s id n f hfresh hnl hfl hfac halpha => ?_,
    fun s id t i hfresh htl hil => ?_, fun s e sid v h0 h1 hst hex => ?_⟩
  · have hfind : find_student s id = none :=
      List.find?_eq_none.mpr (fun st hm => by simp [hfresh st hm])
    have ha : ¬(MAX_NAME_LENGTH ≤ n.length) := by omega
    have hb : ¬(MAX_FACULTY_LENGTH ≤ f.length) := by omega
    have hlen : (add_student s id n f).1.students.length
        = s.students.length + 1 := by
      simp [add_student, hfind, ha, hb, hfac, halpha]
    exact ⟨hlen, fun hcap => by omega⟩
  · have hfind : find_exam s id = none :=
      List.find?_eq_none.mpr (fun ex hm => by simp [hfresh ex hm])
    have ha : ¬(MAX_TYPE_LENGTH ≤ t.length) := by omega
    have hb : ¬(MAX_NAME_LENGTH ≤ i.length) := by omega
    have hlen : (add_exam s id t i).1.exams.length = s.exams.length + 1 := by
      simp [add_exam, hfind, ha, hb]
    exact ⟨hlen, fun hcap => by omega⟩
  · have hrange : (v < 0 || 100 < v) = false := by
      have ha : ¬(v < 0) := by omega
      have hb : ¬(100 < v) := by omega
      simp [ha, hb]
    obtain ⟨st, hstm, hstid⟩ := hst
    obtain ⟨ex, hexm, hexid⟩ := hex
    have hsts : (find_student s sid).isNone = false := by
      have := find?_isSome_of_exists (fun st => st.id == sid) s.students st
        hstm (by simp [hstid])
      simp [Option.isNone_eq_false_iff, ← Option.isSome_iff_ne_none]
      exact this
    have hexs : (find_exam s e).isNone = false := by
      have := find?_isSome_of_exists (fun ex => ex.id == e) s.exams ex
        hexm (by simp [hexid])
      simp [Option.isNone_eq_false_iff, ← Option.isSome_iff_ne_none]
      exact this
    have hlen : (add_grade s e sid v).1.grades.length
        = s.grades.length + 1 := by
      simp [add_grade, hrange, hsts, hexs]
    exact ⟨hlen, fun hcap => by omega⟩

/-- Witness for C10: on a store already holding `MAX_STUDENTS` students, a
valid fresh add still appends, taking the count past the capacity of the C
array. -/
theorem adds_have_no_capacity_check_witness :
    (add_student bigCapStore 1 "B" "DataScience").1.students.length
      = MAX_STUDENTS + 1 := by
  have h := adds_have_no_capacity_check.1 bigCapStore 1 "B" "DataScience"
    (by decide) (by decide) (by decide) (by decide) (by decide)
  have hlen : bigCapStore.students.length = MAX_STUDENTS := by decide
  rw [h.1, hlen]
